import Mathlib

/-!
Verification development for the yuque-chrome-extension OCR bridge and
lake-editor wrapper.

The OCR bridge (class `OCRManager` in the source) proxies image-to-text
requests through a hidden iframe.  Cross-frame messages are JSON envelopes
`{key, requestId, action/type, data}`; a module-level counter allocates
request ids and a `Map` (the correlation table, `resolveCache` in the
source) holds the pending completion callbacks.

Modelling conventions of the shallow embedding:
* JavaScript numbers are modelled by `JNum`: `nan`, the two infinities, and
  finite values as rationals (the claims under study do not depend on
  rounding, only on NaN/infinity propagation, comparisons and subtraction
  signs).
* The JS `Map` is modelled as an association list whose keys are unique
  (the uniqueness is itself proved as an invariant, see the claim about
  request ids); `Map.delete` removes every entry with the given key, which
  coincides with the real `Map.delete` on duplicate-free tables.
* Promise resolution is modelled by an `Option Bool` field: JavaScript's
  `resolve` on an already settled promise is a no-op (`resolveOnce`).
* Callbacks are identified by opaque numeric tokens; "the callback was
  invoked" is modelled by returning its token from the dispatch step.
* The single-threaded event loop is modelled by a list of events
  (incoming messages, the 30-second timer firing, and `sendMessage`
  calls) folded over the bridge state.
-/

namespace YuqueOcr

/-- Model of a JavaScript number: NaN, the infinities, or a finite value. -/
inductive JNum
  | nan
  | posInf
  | negInf
  | fin (q : ℚ)
deriving DecidableEq

/-- JS `isNaN` on a number. -/
def jsIsNaN : JNum → Bool
  | .nan => true
  | _ => false

/-- JS `Number.isFinite` on a number. -/
def jsFinite : JNum → Bool
  | .fin _ => true
  | _ => false

/-- JS strict equality `===` on numbers: `NaN === x` is false for every x. -/
def jsEq : JNum → JNum → Bool
  | .nan, _ => false
  | _, .nan => false
  | .posInf, .posInf => true
  | .negInf, .negInf => true
  | .posInf, _ => false
  | _, .posInf => false
  | .negInf, _ => false
  | _, .negInf => false
  | .fin q, .fin r => decide (q = r)

/-- Sign of the JS subtraction `a - b` as consumed by `Array.prototype.sort`:
a comparator result of NaN is treated as `+0` by the ECMAScript
`SortCompare` operation, hence the `0` results for `nan` operands and for
`inf - inf` of equal signs. -/
def csub : JNum → JNum → Int
  | .nan, _ => 0
  | _, .nan => 0
  | .posInf, .posInf => 0
  | .negInf, .negInf => 0
  | .posInf, _ => 1
  | _, .posInf => -1
  | .negInf, _ => -1
  | _, .negInf => 1
  | .fin q, .fin r => if q < r then -1 else if r < q then 1 else 0

/-- The record produced by the remote OCR service (`IOcrResultItem`). -/
structure IOcrResultItem where
  text : String
  x : JNum
  y : JNum
  width : JNum
  height : JNum
deriving DecidableEq

/-- The filter predicate of `startOCR`:
`item => !isNaN(item.x) && !isNaN(item.y)`. -/
def validB (r : IOcrResultItem) : Bool :=
  !(jsIsNaN r.x) && !(jsIsNaN r.y)

/-- The comparator of `startOCR`:
`if (a.y !== b.y) return a.y - b.y; return a.x - b.x` (as a sign). -/
def cmpR (a b : IOcrResultItem) : Int :=
  if jsEq a.y b.y = false then csub a.y b.y else csub a.x b.x

/-- `a` may be placed before `b` by the comparator (comparator result ≤ 0). -/
def rLE (a b : IOcrResultItem) : Prop := cmpR a b ≤ 0

instance (a b : IOcrResultItem) : Decidable (rLE a b) := by
  unfold rLE; infer_instance

/-- Stable insertion of a region into a list, placing `a` before the first
element `b` with comparator result `cmpR a b ≤ 0`. -/
def orderedInsertR (a : IOcrResultItem) : List IOcrResultItem → List IOcrResultItem
  | [] => [a]
  | b :: l => if cmpR a b ≤ 0 then a :: b :: l else b :: orderedInsertR a l

/-- The `result.sort(...)` call of `startOCR`: ECMAScript requires a stable
sort consistent with the comparator, modelled as stable insertion sort. -/
def sortRegions : List IOcrResultItem → List IOcrResultItem
  | [] => []
  | a :: l => orderedInsertR a (sortRegions l)

/-- Filtering and sorting steps of `startOCR` (the result normalizer). -/
def normalizeRegions (l : List IOcrResultItem) : List IOcrResultItem :=
  sortRegions (l.filter validB)

/-! ### The correlation table (`resolveCache`, a JS `Map`) -/

/-- `Map.get`: value of the first entry with the given key. -/
def mapGet : List (Nat × Nat) → Nat → Option Nat
  | [], _ => none
  | p :: t, k => if p.1 = k then some p.2 else mapGet t k

/-- `Map.delete`: remove the entry with the given key (every one, which is
the same thing on the duplicate-free tables the bridge builds). -/
def mapDelete : List (Nat × Nat) → Nat → List (Nat × Nat)
  | [], _ => []
  | p :: t, k => if p.1 = k then mapDelete t k else p :: mapDelete t k

/-- `Map.set`: overwrite the entry with the given key, or append a new one. -/
def mapSet : List (Nat × Nat) → Nat → Nat → List (Nat × Nat)
  | [], k, v => [(k, v)]
  | p :: t, k, v => if p.1 = k then (k, v) :: t else p :: mapSet t k v

/-! ### Envelopes and the bridge state -/

/-- The constant message tag (`const key = 'ocr-message'`). -/
def key : String := "ocr-message"

/-- A message envelope as observed by the `message` listener
(`event.data`). -/
structure Envelope where
  key : String
  requestId : Nat
  type : String
deriving DecidableEq

/-- State owned by one `init` call of `OCRManager`: the settlement state of
the returned promise, whether `sendMessageRef` has been installed
(`transport`), the correlation table, and the module-level request-id
counter backing `getRequestID`. -/
structure BridgeState where
  resolved : Option Bool
  transport : Bool
  cache : List (Nat × Nat)
  counter : Nat
deriving DecidableEq

/-- The bridge state before any event: promise pending, no transport,
empty correlation table, counter at `let id = 0`. -/
def initB : BridgeState := ⟨none, false, [], 0⟩

/-- JS promise `resolve`: a no-op once the promise has settled. -/
def resolveOnce (r : Option Bool) (b : Bool) : Option Bool :=
  match r with
  | some x => some x
  | none => some b

/-- `getRequestID`: `id++; return id` on the module-level counter. -/
def getRequestID (id : Nat) : Nat := id + 1

/-- The `type === 'ocr-ready'` branch of `messageFunc`: (re)install
`sendMessageRef` and `resolve(true)` the init promise. -/
def applyReady (s : BridgeState) (e : Envelope) : BridgeState :=
  if e.type = "ocr-ready" then
    { s with transport := true, resolved := resolveOnce s.resolved true }
  else s

/-- `messageFunc`: drop envelopes whose `key` differs from the constant tag;
otherwise look the `requestId` up in the correlation table, and on a hit
invoke the pending callback (returned as the delivered token) and delete
its entry; finally process a readiness signal.  Returns the new state and
the token of the callback that was invoked, if any. -/
def handleMessage (s : BridgeState) (e : Envelope) : BridgeState × Option Nat :=
  if e.key ≠ key then (s, none)
  else
    match mapGet s.cache e.requestId with
    | some cb =>
      (applyReady { s with cache := mapDelete s.cache e.requestId } e, some cb)
    | none => (applyReady s e, none)

/-- The 30-second `setTimeout` callback: `resolve(false)` on the init
promise (a no-op if it already settled). -/
def handleTimeout (s : BridgeState) : BridgeState :=
  { s with resolved := resolveOnce s.resolved false }

/-- `sendMessage` / `sendMessageRef`: return `none` (JS `undefined`) when no
readiness signal has installed the transport; otherwise allocate a fresh
request id with `getRequestID`, record the completion callback (token
`cb`) in the correlation table, post the envelope into the frame, and
return the allocated id. -/
def sendMessage (s : BridgeState) (cb : Nat) : BridgeState × Option Nat :=
  if s.transport then
    let rid := getRequestID s.counter
    ({ s with counter := rid, cache := mapSet s.cache rid cb }, some rid)
  else (s, none)

/-- One event of the single-threaded event loop: an incoming `message`
event, the 30-second timer firing, or a `sendMessage` call. -/
inductive BEvent
  | msg (e : Envelope)
  | timeout
  | send (cb : Nat)

/-- One event-loop step; also reports the request id allocated by a send,
if any. -/
def stepB (s : BridgeState) : BEvent → BridgeState × Option Nat
  | .msg e => ((handleMessage s e).1, none)
  | .timeout => (handleTimeout s, none)
  | .send cb => sendMessage s cb

/-- Fold a list of events over the bridge state, collecting the request ids
allocated along the way. -/
def runAlloc (s : BridgeState) : List BEvent → BridgeState × List Nat
  | [] => (s, [])
  | ev :: t =>
    let r := stepB s ev
    let rest := runAlloc r.1 t
    (rest.1, r.2.toList ++ rest.2)

/-- The bridge state after a list of events. -/
def runB (s : BridgeState) (es : List BEvent) : BridgeState :=
  (runAlloc s es).1

/-- An event is the readiness signal exactly when it is an accepted message
of type `"ocr-ready"`. -/
def isReadySignal : BEvent → Bool
  | .msg e => e.key == "ocr-message" && e.type == "ocr-ready"
  | _ => false

/-- Specification of what the init promise settles to: the first settling
event wins — `true` for a readiness signal, `false` for the timer. -/
def firstSettle : List BEvent → Option Bool
  | [] => none
  | .timeout :: _ => some false
  | ev :: t => if isReadySignal ev then some true else firstSettle t

/-! ### Order-theoretic facts about the comparator -/

/-- Embedding of the non-NaN JS numbers into the linear order
`WithBot (WithTop ℚ)` (`-∞` at the bottom, `+∞` at the top; the value at
`nan` is irrelevant, since NaN regions are filtered out before sorting). -/
def toE : JNum → WithBot (WithTop ℚ)
  | .nan => ⊥
  | .negInf => ⊥
  | .posInf => ((⊤ : WithTop ℚ) : WithBot (WithTop ℚ))
  | .fin q => (((q : ℚ) : WithTop ℚ) : WithBot (WithTop ℚ))

/-- The sorting specification claimed for the normalizer: ascending `y`
and, for equal `y`, ascending `x` (in the numeric order `toE`). -/
def lexLE (a b : IOcrResultItem) : Prop :=
  toE a.y < toE b.y ∨ (toE a.y = toE b.y ∧ toE a.x ≤ toE b.x)

theorem lexLE_trans {a b c : IOcrResultItem} (h1 : lexLE a b) (h2 : lexLE b c) :
    lexLE a c := by
  rcases h1 with h1 | ⟨e1, hx1⟩ <;> rcases h2 with h2 | ⟨e2, hx2⟩
  · exact Or.inl (lt_trans h1 h2)
  · exact Or.inl (e2 ▸ h1)
  · exact Or.inl (e1 ▸ h2)
  · exact Or.inr ⟨e1.trans e2, le_trans hx1 hx2⟩

theorem csub_le_iff {p q : JNum} (hp : jsIsNaN p = false) (hq : jsIsNaN q = false) :
    csub p q ≤ 0 ↔ toE p ≤ toE q := by
  cases p <;> cases q
  any_goals simp [jsIsNaN] at hp hq
  case posInf.posInf => simp [csub, toE]
  case posInf.negInf => simp [csub, toE, le_bot_iff]
  case posInf.fin r => simp [csub, toE, WithBot.coe_le_coe, top_le_iff]
  case negInf.posInf => simp [csub, toE]
  case negInf.negInf => simp [csub, toE]
  case negInf.fin r => simp [csub, toE]
  case fin.posInf q => simp [csub, toE, WithBot.coe_le_coe]
  case fin.negInf q => simp [csub, toE, le_bot_iff]
  case fin.fin q r =>
    rcases lt_trichotomy q r with h | h | h
    · simp [csub, toE, WithBot.coe_le_coe, WithTop.coe_le_coe, h, le_of_lt h]
    · subst h
      simp [csub, toE]
    · simp [csub, toE, WithBot.coe_le_coe, WithTop.coe_le_coe,
        not_lt.2 (le_of_lt h), h, not_le.2 h]

theorem jsEq_refl {p : JNum} (hp : jsIsNaN p = false) : jsEq p p = true := by
  cases p <;> simp_all [jsIsNaN, jsEq]

theorem jsEq_iff {p q : JNum} (hp : jsIsNaN p = false) (hq : jsIsNaN q = false) :
    jsEq p q = true ↔ p = q := by
  cases p <;> cases q <;> simp_all [jsIsNaN, jsEq]

theorem toE_inj {p q : JNum} (hp : jsIsNaN p = false) (hq : jsIsNaN q = false) :
    toE p = toE q ↔ p = q := by
  cases p <;> cases q
  any_goals simp [jsIsNaN] at hp hq
  case posInf.posInf => simp [toE]
  case posInf.negInf => simp [toE, WithBot.coe_ne_bot]
  case posInf.fin r => simp [toE, WithBot.coe_inj, WithTop.top_ne_coe]
  case negInf.posInf => simp [toE, WithBot.bot_ne_coe]
  case negInf.negInf => simp [toE]
  case negInf.fin r => simp [toE, WithBot.bot_ne_coe]
  case fin.posInf q => simp [toE, WithBot.coe_inj, WithTop.coe_ne_top]
  case fin.negInf q => simp [toE, WithBot.coe_ne_bot]
  case fin.fin q r => simp [toE, WithBot.coe_inj, WithTop.coe_inj]

theorem jsEq_symm (p q : JNum) : jsEq p q = jsEq q p := by
  cases p <;> cases q <;> simp only [jsEq]
  exact decide_eq_decide.mpr eq_comm

theorem csub_neg (p q : JNum) : csub p q = -csub q p := by
  cases p <;> cases q <;> simp only [csub, Int.neg_neg, Int.neg_zero]
  rename_i q r
  rcases lt_trichotomy q r with h | h | h
  · simp [h, not_lt.2 (le_of_lt h)]
  · subst h
    simp
  · simp [h, not_lt.2 (le_of_lt h)]

theorem cmpR_neg (a b : IOcrResultItem) : cmpR a b = -cmpR b a := by
  unfold cmpR
  rw [jsEq_symm b.y a.y]
  split
  · exact csub_neg a.y b.y
  · exact csub_neg a.x b.x

theorem rLE_total (a b : IOcrResultItem) : rLE a b ∨ rLE b a := by
  unfold rLE
  rw [cmpR_neg a b]
  omega

theorem validB_x {a : IOcrResultItem} (h : validB a = true) : jsIsNaN a.x = false := by
  have := h
  unfold validB at this
  simp only [Bool.and_eq_true, Bool.not_eq_eq_eq_not, Bool.not_true] at this
  exact this.1

theorem validB_y {a : IOcrResultItem} (h : validB a = true) : jsIsNaN a.y = false := by
  have := h
  unfold validB at this
  simp only [Bool.and_eq_true, Bool.not_eq_eq_eq_not, Bool.not_true] at this
  exact this.2

/-- On NaN-free regions the code's comparator agrees with the claimed
reading order: ascending `y`, then ascending `x`. -/
theorem cmpLE_iff {a b : IOcrResultItem} (ha : validB a = true) (hb : validB b = true) :
    rLE a b ↔ lexLE a b := by
  have hax := validB_x ha
  have hay := validB_y ha
  have hbx := validB_x hb
  have hby := validB_y hb
  unfold rLE cmpR
  by_cases h : jsEq a.y b.y = true
  · have hyy : a.y = b.y := (jsEq_iff hay hby).mp h
    rw [if_neg (by simp [h])]
    rw [csub_le_iff hax hbx]
    unfold lexLE
    rw [hyy]
    constructor
    · intro hx
      exact Or.inr ⟨rfl, hx⟩
    · rintro (hlt | ⟨-, hx⟩)
      · exact absurd hlt (lt_irrefl _)
      · exact hx
  · have h' : jsEq a.y b.y = false := by
      cases hc : jsEq a.y b.y
      · rfl
      · exact absurd hc h
    have hne : toE a.y ≠ toE b.y := by
      intro e
      have : a.y = b.y := (toE_inj hay hby).mp e
      rw [this, jsEq_refl hby] at h'
      exact Bool.true_eq_false.mp h'
    rw [if_pos h']
    rw [csub_le_iff hay hby]
    unfold lexLE
    constructor
    · intro hle
      exact Or.inl (lt_of_le_of_ne hle hne)
    · rintro (hlt | ⟨heq, -⟩)
      · exact le_of_lt hlt
      · exact absurd heq hne

theorem rLE_trans_valid {a b c : IOcrResultItem} (ha : validB a = true)
    (hb : validB b = true) (hc : validB c = true) (h1 : rLE a b) (h2 : rLE b c) :
    rLE a c := by
  rw [cmpLE_iff ha hb] at h1
  rw [cmpLE_iff hb hc] at h2
  rw [cmpLE_iff ha hc]
  exact lexLE_trans h1 h2

/-! ### The insertion sort: permutation and sortedness -/

theorem orderedInsertR_perm (a : IOcrResultItem) (l : List IOcrResultItem) :
    List.Perm (orderedInsertR a l) (a :: l) := by
  induction l with
  | nil => exact List.Perm.refl _
  | cons b t ih =>
    unfold orderedInsertR
    split
    · exact List.Perm.refl _
    · exact List.Perm.trans (List.Perm.cons b ih) (List.Perm.swap a b t)

theorem sortRegions_perm (l : List IOcrResultItem) :
    List.Perm (sortRegions l) l := by
  induction l with
  | nil => exact List.Perm.refl _
  | cons a t ih =>
    exact List.Perm.trans (orderedInsertR_perm a (sortRegions t)) (List.Perm.cons a ih)

theorem mem_orderedInsertR {x a : IOcrResultItem} {l : List IOcrResultItem}
    (h : x ∈ orderedInsertR a l) : x = a ∨ x ∈ l := by
  have := (orderedInsertR_perm a l).mem_iff.mp h
  simpa using this

theorem orderedInsertR_pairwise {a : IOcrResultItem} {l : List IOcrResultItem}
    (hva : validB a = true) (hvl : ∀ x ∈ l, validB x = true)
    (hs : l.Pairwise rLE) : (orderedInsertR a l).Pairwise rLE := by
  induction l with
  | nil => simp [orderedInsertR]
  | cons b t ih =>
    have hvb : validB b = true := hvl b (by simp)
    have hvt : ∀ x ∈ t, validB x = true := fun x hx => hvl x (by simp [hx])
    rw [List.pairwise_cons] at hs
    unfold orderedInsertR
    split
    · rename_i hab
      rw [List.pairwise_cons]
      refine ⟨?_, List.pairwise_cons.mpr hs⟩
      intro x hx
      rcases List.mem_cons.mp hx with rfl | hxt
      · exact hab
      · exact rLE_trans_valid hva hvb (hvt x hxt) hab (hs.1 x hxt)
    · rename_i hab
      rw [List.pairwise_cons]
      refine ⟨?_, ih hvt hs.2⟩
      intro x hx
      rcases mem_orderedInsertR hx with rfl | hxt
      · rcases rLE_total x b with h | h
        · exact absurd h hab
        · exact h
      · exact hs.1 x hxt

theorem sortRegions_pairwise {l : List IOcrResultItem}
    (hvl : ∀ x ∈ l, validB x = true) : (sortRegions l).Pairwise rLE := by
  induction l with
  | nil => exact List.Pairwise.nil
  | cons a t ih =>
    have hvt : ∀ x ∈ t, validB x = true := fun x hx => hvl x (by simp [hx])
    refine orderedInsertR_pairwise (hvl a (by simp)) ?_ (ih hvt)
    intro x hx
    exact hvt x ((sortRegions_perm t).mem_iff.mp hx)

theorem pairwise_imp_mem {α : Type} {R S : α → α → Prop} :
    ∀ {l : List α}, (∀ a b, a ∈ l → b ∈ l → R a b → S a b) →
      l.Pairwise R → l.Pairwise S
  | [], _, _ => List.Pairwise.nil
  | a :: t, h, hp => by
    rw [List.pairwise_cons] at hp ⊢
    refine ⟨?_, pairwise_imp_mem (fun x y hx hy => h x y (by simp [hx]) (by simp [hy])) hp.2⟩
    intro x hx
    exact h a x (by simp) (by simp [hx]) (hp.1 x hx)

theorem mem_normalizeRegions_valid {l : List IOcrResultItem} {x : IOcrResultItem}
    (h : x ∈ normalizeRegions l) : validB x = true := by
  unfold normalizeRegions at h
  exact List.of_mem_filter ((sortRegions_perm (l.filter validB)).mem_iff.mp h)

theorem normalizeRegions_pairwise_lex (l : List IOcrResultItem) :
    (normalizeRegions l).Pairwise lexLE := by
  have hp : (normalizeRegions l).Pairwise rLE := by
    unfold normalizeRegions
    exact sortRegions_pairwise (fun x hx => List.of_mem_filter hx)
  refine pairwise_imp_mem (fun a b ha hb hr => ?_) hp
  exact (cmpLE_iff (mem_normalizeRegions_valid ha) (mem_normalizeRegions_valid hb)).mp hr

/-! ### `startOCR`: readiness gate, request issuance and post-processing -/

/-- A JavaScript value as far as truthiness is concerned: `undefined`, a
boolean, or a (truthy) object such as a response envelope. -/
inductive JsVal
  | undefined
  | boolV (b : Bool)
  | objV
deriving DecidableEq

/-- JS truthiness of a `JsVal`. -/
def truthy : JsVal → Bool
  | .undefined => false
  | .boolV b => b
  | .objV => true

/-- The `data` field of the `startOcr` response (`res?.data`): absent or
falsy, an array of regions, or some truthy non-array value. -/
inductive JsData
  | undefined
  | arr (l : List IOcrResultItem)
  | nonArray
deriving DecidableEq

/-- The `try` block of `startOCR`: `(res?.data || []).filter(...).sort(...)`.
Calling `.filter` on a truthy non-array value throws a `TypeError`,
modelled as `Except.error`. -/
def postBody : JsData → Except Unit (List IOcrResultItem)
  | .undefined => .ok (normalizeRegions [])
  | .arr l => .ok (normalizeRegions l)
  | .nonArray => .error ()

/-- The value the `await ocrManager.isWebOcrReady()` line yields: the
response envelope when the transport is installed, JS `undefined`
otherwise (`sendMessage` returns `undefined` without the transport). -/
def ocrIsReady (s : BridgeState) (readyResp : JsVal) : JsVal :=
  if s.transport then readyResp else .undefined

/-- `startOCR` after its `await this.init()` line, as a function of the
bridge state, the value the readiness check resolves to, and the `data`
payload of the `startOcr` response.  Returns the JS return value (`none`
is `undefined`) and the list of actions actually posted into the frame. -/
def startOCR (s : BridgeState) (readyResp : JsVal) (ocrData : JsData) :
    Option (List IOcrResultItem) × List String :=
  if truthy (ocrIsReady s readyResp) = false then
    (some [], if s.transport then ["isWebOcrReady"] else [])
  else
    match postBody ocrData with
    | .ok r =>
      (some r, (if s.transport then ["isWebOcrReady"] else []) ++ ["startOcr"])
    | .error _ =>
      (none, (if s.transport then ["isWebOcrReady"] else []) ++ ["startOcr"])

/-! ### `init` and the hidden iframe (frame lifecycle) -/

/-- The frame-creation state of the `OCRManager` singleton: whether
`this.iframe` has been assigned, and how many iframes have been appended
to `document.body`. -/
structure OCRManagerState where
  iframe : Bool
  frames : Nat
deriving DecidableEq

/-- The synchronous part of `OCRManager.init`: `if (this.iframe) return;`
otherwise create the hidden iframe, assign `this.iframe` and append it to
the document (the executor of the returned promise runs synchronously, so
`this.iframe` is assigned before any other call can observe the state). -/
def init (m : OCRManagerState) : OCRManagerState :=
  if m.iframe then m else { iframe := true, frames := m.frames + 1 }

/-! ### Facts about the event loop -/

theorem applyReady_cache (s : BridgeState) (e : Envelope) :
    (applyReady s e).cache = s.cache := by
  unfold applyReady
  split <;> rfl

theorem applyReady_counter (s : BridgeState) (e : Envelope) :
    (applyReady s e).counter = s.counter := by
  unfold applyReady
  split <;> rfl

theorem handleMessage_cache (s : BridgeState) (e : Envelope) :
    ((handleMessage s e).1).cache = s.cache ∨
      ((handleMessage s e).1).cache = mapDelete s.cache e.requestId := by
  unfold handleMessage
  split
  · exact Or.inl rfl
  · split
    · exact Or.inr (applyReady_cache _ _)
    · exact Or.inl (applyReady_cache _ _)

theorem handleMessage_counter (s : BridgeState) (e : Envelope) :
    ((handleMessage s e).1).counter = s.counter := by
  unfold handleMessage
  split
  · rfl
  · split <;> exact applyReady_counter _ _

theorem beq_string_of_eq {a b : String} (h : a = b) : (a == b) = true := by
  subst h
  simp

theorem stepB_resolved (s : BridgeState) (ev : BEvent) :
    ((stepB s ev).1).resolved =
      (if isReadySignal ev then resolveOnce s.resolved true
        else match ev with
          | .timeout => resolveOnce s.resolved false
          | _ => s.resolved) := by
  cases ev with
  | msg e =>
    simp only [stepB, handleMessage, isReadySignal]
    split
    · rename_i h
      have hk : (e.key == "ocr-message") = false := by
        simp only [ne_eq, key] at h
        simp [h]
      simp [hk]
    · rename_i h
      have he : e.key = "ocr-message" := by
        simpa [ne_eq, key] using h
      have hk : (e.key == "ocr-message") = true := beq_string_of_eq he
      split <;>
        · simp only [applyReady, hk, Bool.true_and]
          by_cases ht : e.type = "ocr-ready"
          · simp [ht]
          · have : (e.type == "ocr-ready") = false := by simp [ht]
            simp [ht, this]
  | timeout => simp [stepB, handleTimeout, isReadySignal]
  | send cb =>
    simp only [stepB, sendMessage, isReadySignal]
    split <;> simp

theorem stepB_transport (s : BridgeState) (ev : BEvent) :
    ((stepB s ev).1).transport =
      (if isReadySignal ev then true else s.transport) := by
  cases ev with
  | msg e =>
    simp only [stepB, handleMessage, isReadySignal]
    split
    · rename_i h
      have hk : (e.key == "ocr-message") = false := by
        simp only [ne_eq, key] at h
        simp [h]
      simp [hk]
    · rename_i h
      have he : e.key = "ocr-message" := by
        simpa [ne_eq, key] using h
      have hk : (e.key == "ocr-message") = true := beq_string_of_eq he
      split <;>
        · simp only [applyReady, hk, Bool.true_and]
          by_cases ht : e.type = "ocr-ready"
          · simp [ht]
          · have : (e.type == "ocr-ready") = false := by simp [ht]
            simp [ht, this]
  | timeout => simp [stepB, handleTimeout, isReadySignal]
  | send cb =>
    simp only [stepB, sendMessage, isReadySignal]
    split <;> simp

theorem runB_cons (s : BridgeState) (ev : BEvent) (t : List BEvent) :
    runB s (ev :: t) = runB (stepB s ev).1 t := rfl

theorem resolveOnce_some (b x : Bool) : resolveOnce (some b) x = some b := rfl

theorem runB_resolved_some :
    ∀ (es : List BEvent) (s : BridgeState) (b : Bool),
      s.resolved = some b → (runB s es).resolved = some b := by
  intro es
  induction es with
  | nil => intro s b h; exact h
  | cons ev t ih =>
    intro s b h
    rw [runB_cons]
    refine ih _ b ?_
    rw [stepB_resolved, h]
    split
    · rfl
    · cases ev <;> rfl

theorem runB_settles :
    ∀ (es : List BEvent) (s : BridgeState),
      s.resolved = none → (runB s es).resolved = firstSettle es := by
  intro es
  induction es with
  | nil => intro s h; exact h
  | cons ev t ih =>
    intro s h
    rw [runB_cons]
    by_cases hsig : isReadySignal ev = true
    · have hres : ((stepB s ev).1).resolved = some true := by
        rw [stepB_resolved, if_pos hsig, h]
        rfl
      have : firstSettle (ev :: t) = some true := by
        cases ev with
        | msg e => simp [firstSettle, hsig]
        | timeout => simp [isReadySignal] at hsig
        | send cb => simp [isReadySignal] at hsig
      rw [this]
      exact runB_resolved_some t _ true hres
    · have hsig' : isReadySignal ev = false := by
        cases hs : isReadySignal ev
        · rfl
        · exact absurd hs hsig
      cases ev with
      | msg e =>
        have hres : ((stepB s (.msg e)).1).resolved = none := by
          rw [stepB_resolved, if_neg (by simp [hsig'])]
          exact h
        rw [ih _ hres]
        simp [firstSettle, hsig']
      | timeout =>
        have hres : ((stepB s .timeout).1).resolved = some false := by
          rw [stepB_resolved, if_neg (by simp [hsig']), h]
          rfl
        rw [runB_resolved_some t _ false hres]
        rfl
      | send cb =>
        have hres : ((stepB s (.send cb)).1).resolved = none := by
          rw [stepB_resolved, if_neg (by simp [hsig'])]
          exact h
        rw [ih _ hres]
        simp [firstSettle, hsig', isReadySignal]

theorem runB_transport_false :
    ∀ (es : List BEvent) (s : BridgeState),
      (∀ ev ∈ es, isReadySignal ev = false) → s.transport = false →
      (runB s es).transport = false := by
  intro es
  induction es with
  | nil => intro s _ h; exact h
  | cons ev t ih =>
    intro s hall h
    rw [runB_cons]
    refine ih _ (fun x hx => hall x (by simp [hx])) ?_
    rw [stepB_transport, if_neg (by simp [hall ev (by simp)])]
    exact h

theorem firstSettle_no_ready :
    ∀ (es : List BEvent), (∀ ev ∈ es, isReadySignal ev = false) →
      BEvent.timeout ∈ es → firstSettle es = some false := by
  intro es
  induction es with
  | nil => intro _ h; exact absurd h (by simp)
  | cons ev t ih =>
    intro hall hmem
    cases ev with
    | msg e =>
      have : BEvent.timeout ∈ t := by
        rcases List.mem_cons.mp hmem with h | h
        · exact absurd h (by simp)
        · exact h
      rw [show firstSettle (BEvent.msg e :: t) =
          (if isReadySignal (BEvent.msg e) then some true else firstSettle t) from rfl]
      rw [if_neg (by simp [hall (BEvent.msg e) (by simp)])]
      exact ih (fun x hx => hall x (by simp [hx])) this
    | timeout => rfl
    | send cb =>
      have : BEvent.timeout ∈ t := by
        rcases List.mem_cons.mp hmem with h | h
        · exact absurd h (by simp)
        · exact h
      rw [show firstSettle (BEvent.send cb :: t) =
          (if isReadySignal (BEvent.send cb) then some true else firstSettle t) from rfl]
      rw [if_neg (by simp [isReadySignal])]
      exact ih (fun x hx => hall x (by simp [hx])) this

/-! ### Facts about the correlation table -/

theorem mapGet_mapDelete_self (c : List (Nat × Nat)) (k : Nat) :
    mapGet (mapDelete c k) k = none := by
  induction c with
  | nil => rfl
  | cons p t ih =>
    unfold mapDelete
    by_cases h : p.1 = k
    · simp [h, ih]
    · simp [mapGet, h, ih]

theorem mapGet_mapDelete_ne (c : List (Nat × Nat)) {k r : Nat} (h : r ≠ k) :
    mapGet (mapDelete c k) r = mapGet c r := by
  induction c with
  | nil => rfl
  | cons p t ih =>
    by_cases hp : p.1 = k
    · rw [show mapDelete (p :: t) k =
        (if p.1 = k then mapDelete t k else p :: mapDelete t k) from rfl, if_pos hp]
      rw [ih]
      have hpr : p.1 ≠ r := by
        rw [hp]
        exact fun e => h e.symm
      rw [show mapGet (p :: t) r =
        (if p.1 = r then some p.2 else mapGet t r) from rfl, if_neg hpr]
    · rw [show mapDelete (p :: t) k =
        (if p.1 = k then mapDelete t k else p :: mapDelete t k) from rfl, if_neg hp]
      rw [show mapGet (p :: mapDelete t k) r =
        (if p.1 = r then some p.2 else mapGet (mapDelete t k) r) from rfl]
      rw [show mapGet (p :: t) r =
        (if p.1 = r then some p.2 else mapGet t r) from rfl]
      by_cases hr : p.1 = r
      · rw [if_pos hr, if_pos hr]
      · rw [if_neg hr, if_neg hr, ih]

theorem mapDelete_sublist (c : List (Nat × Nat)) (k : Nat) :
    List.Sublist (mapDelete c k) c := by
  induction c with
  | nil => exact List.Sublist.refl _
  | cons p t ih =>
    unfold mapDelete
    by_cases h : p.1 = k
    · simp only [h, if_pos rfl]
      exact List.Sublist.cons p ih
    · simp only [if_neg h]
      exact List.Sublist.cons₂ p ih

theorem mapSet_keys_fresh (c : List (Nat × Nat)) (k v : Nat)
    (h : ∀ p ∈ c, p.1 ≠ k) :
    (mapSet c k v).map Prod.fst = c.map Prod.fst ++ [k] := by
  induction c with
  | nil => rfl
  | cons p t ih =>
    unfold mapSet
    rw [if_neg (h p (by simp))]
    simp only [List.map_cons, List.cons_append]
    rw [ih (fun q hq => h q (by simp [hq]))]

/-- State invariant for the id allocator: correlation-table keys are
duplicate-free and never exceed the counter. -/
def InvB (s : BridgeState) : Prop :=
  (s.cache.map Prod.fst).Nodup ∧ ∀ k ∈ s.cache.map Prod.fst, k ≤ s.counter

theorem stepB_inv (s : BridgeState) (ev : BEvent) (h : InvB s) :
    InvB (stepB s ev).1 ∧ s.counter ≤ ((stepB s ev).1).counter ∧
      (∀ i, (stepB s ev).2 = some i →
        s.counter < i ∧ i = ((stepB s ev).1).counter) := by
  obtain ⟨hnd, hbd⟩ := h
  cases ev with
  | msg e =>
    have hc := handleMessage_cache s e
    have hco := handleMessage_counter s e
    have hsub : List.Sublist (((handleMessage s e).1).cache) s.cache := by
      rcases hc with hc | hc
      · rw [hc]
      · rw [hc]
        exact mapDelete_sublist _ _
    have hkeys : List.Sublist (((handleMessage s e).1).cache.map Prod.fst)
        (s.cache.map Prod.fst) := List.Sublist.map _ hsub
    refine ⟨⟨hnd.sublist hkeys, ?_⟩, ?_, ?_⟩
    · intro k hk
      rw [show ((stepB s (.msg e)).1) = (handleMessage s e).1 from rfl, hco]
      exact hbd k (hkeys.subset hk)
    · rw [show ((stepB s (.msg e)).1) = (handleMessage s e).1 from rfl, hco]
    · intro i hi
      exact absurd hi (by simp [stepB])
  | timeout =>
    refine ⟨⟨hnd, hbd⟩, le_refl _, ?_⟩
    intro i hi
    exact absurd hi (by simp [stepB])
  | send cb =>
    simp only [stepB, sendMessage]
    by_cases ht : s.transport
    · rw [if_pos ht]
      have hfresh : ∀ p ∈ s.cache, p.1 ≠ getRequestID s.counter := by
        intro p hp e
        have : p.1 ≤ s.counter := hbd p.1 (List.mem_map.mpr ⟨p, hp, rfl⟩)
        rw [e] at this
        unfold getRequestID at this
        omega
      have hkeys := mapSet_keys_fresh s.cache (getRequestID s.counter) cb hfresh
      have hknd : ((mapSet s.cache (getRequestID s.counter) cb).map Prod.fst).Nodup := by
        rw [hkeys, List.nodup_append_comm]
        rw [List.singleton_append, List.nodup_cons]
        refine ⟨?_, hnd⟩
        intro hmem
        have := hbd _ hmem
        unfold getRequestID at this
        omega
      refine ⟨⟨hknd, ?_⟩, by simp [getRequestID], ?_⟩
      · intro k hk
        rw [hkeys] at hk
        rcases List.mem_append.mp hk with hk | hk
        · have := hbd k hk
          simp only [getRequestID]
          omega
        · simp only [List.mem_singleton] at hk
          simp [hk]
      · intro i hi
        simp only [Option.some.injEq] at hi
        subst hi
        exact ⟨by simp [getRequestID], rfl⟩
    · rw [if_neg ht]
      refine ⟨⟨hnd, hbd⟩, le_refl _, ?_⟩
      intro i hi
      exact absurd hi (by simp)

theorem runAlloc_cons (s : BridgeState) (ev : BEvent) (t : List BEvent) :
    runAlloc s (ev :: t) =
      ((runAlloc (stepB s ev).1 t).1,
        (stepB s ev).2.toList ++ (runAlloc (stepB s ev).1 t).2) := rfl

theorem runAlloc_main :
    ∀ (es : List BEvent) (s : BridgeState), InvB s →
      InvB (runAlloc s es).1 ∧
      s.counter ≤ ((runAlloc s es).1).counter ∧
      ((runAlloc s es).2).Pairwise (fun a b => a < b) ∧
      (∀ i ∈ (runAlloc s es).2, s.counter < i) := by
  intro es
  induction es with
  | nil =>
    intro s h
    exact ⟨h, le_refl _, List.Pairwise.nil, by simp [runAlloc]⟩
  | cons ev t ih =>
    intro s h
    obtain ⟨hinv, hle, halloc⟩ := stepB_inv s ev h
    obtain ⟨hinv2, hle2, hpw2, hgt2⟩ := ih _ hinv
    rw [runAlloc_cons]
    refine ⟨hinv2, le_trans hle hle2, ?_, ?_⟩
    · cases ho : (stepB s ev).2 with
      | none => simpa using hpw2
      | some i =>
        obtain ⟨hgt, heq⟩ := halloc i ho
        simp only [Option.toList_some, List.singleton_append]
        rw [List.pairwise_cons]
        refine ⟨?_, hpw2⟩
        intro j hj
        have := hgt2 j hj
        omega
    · intro i hi
      cases ho : (stepB s ev).2 with
      | none =>
        rw [ho] at hi
        simp only [Option.toList_none, List.nil_append] at hi
        have := hgt2 i hi
        omega
      | some a =>
        obtain ⟨hgt, heq⟩ := halloc a ho
        rw [ho] at hi
        simp only [Option.toList_some, List.singleton_append, List.mem_cons] at hi
        rcases hi with rfl | hi
        · exact hgt
        · have := hgt2 i hi
          omega

end YuqueOcr

namespace LakeEditorUI

/-!
Model of the imperative handle exported by the lake-editor React wrapper
(`useImperativeHandle` in `editor.tsx`).  The hosted third-party editor is
opaque: it is modelled as a record of response functions, and the handle
operations either return a value or produce a list of imperative actions
sent to the editor/iframe.  Before the hosted editor instance exists the
`editor` state is `none`.
-/

/-- The opaque hosted editor object: only the observations the wrapper
makes of it are modelled. -/
structure LakeEditor where
  getDocument : String → String
  queryCommandValue : String → Bool

/-- An imperative action the handle forwards to the editor or iframe. -/
inductive EditorAction
  | execCommand (name : String) (arg : Option String)
  | kernelPaste (html : String)
  | iframeFocus
  | setDocument (format : String) (content : String)

/-- `getContent` of the imperative handle: empty string without an editor;
otherwise `getDocument` with the format mapped as in the source. -/
def getContent (ed : Option LakeEditor) (type : String) : String :=
  match ed with
  | none => ""
  | some e =>
    if type = "lake" then e.getDocument "text/lake"
    else if type = "text/html" then e.getDocument "text/html"
    else e.getDocument "description"

/-- `isEmpty` of the imperative handle: `true` without an editor, otherwise
`queryCommandValue('isEmpty')`. -/
def isEmpty (ed : Option LakeEditor) : Bool :=
  match ed with
  | none => true
  | some e => e.queryCommandValue "isEmpty"

/-- `appendContent` of the imperative handle: no action without an editor;
otherwise the optional `breakLine` command, the kernel paste, the iframe
focus and the `focus`-to-end command, in source order. -/
def appendContent (ed : Option LakeEditor) (html : String) (breakLine : Bool) :
    List EditorAction :=
  match ed with
  | none => []
  | some _ =>
    (if breakLine then [EditorAction.execCommand "breakLine" none] else []) ++
      [EditorAction.kernelPaste html, EditorAction.iframeFocus,
        EditorAction.execCommand "focus" (some "end")]

/-- `setContent` of the imperative handle: no action without an editor;
otherwise focus the iframe, replace the document and focus the end. -/
def setContent (ed : Option LakeEditor) (html : String) : List EditorAction :=
  match ed with
  | none => []
  | some _ =>
    [EditorAction.iframeFocus, EditorAction.setDocument "text/html" html,
      EditorAction.execCommand "focus" (some "end")]

end LakeEditorUI

/-! ## The claims -/

namespace YuqueOcr

/-- Claim C1: for every state of the correlation table (hence for every set
of concurrently in-flight requests, whatever their send order), an
accepted response envelope is delivered to exactly the pending callback
whose request id equals the envelope's `requestId`; that entry is removed,
entries under other ids are untouched, and re-dispatching the same
envelope delivers nothing (at-most-once delivery per request id). -/
theorem c1_dispatch_exactly_once (s : BridgeState) (e : Envelope) (c k : Nat)
    (hkey : e.key = "ocr-message") (hpend : mapGet s.cache e.requestId = some c)
    (hk : k ≠ e.requestId) :
    (handleMessage s e).2 = some c ∧
    mapGet ((handleMessage s e).1).cache e.requestId = none ∧
    mapGet ((handleMessage s e).1).cache k = mapGet s.cache k ∧
    (handleMessage ((handleMessage s e).1) e).2 = none := by
  have hne : ¬ e.key ≠ key := by simp [key, hkey]
  have h1 : handleMessage s e =
      (applyReady { s with cache := mapDelete s.cache e.requestId } e, some c) := by
    unfold handleMessage
    rw [if_neg hne, hpend]
  have hcache : (applyReady { s with cache := mapDelete s.cache e.requestId } e).cache =
      mapDelete s.cache e.requestId := applyReady_cache _ _
  rw [h1]
  have hnone : mapGet (applyReady
      { s with cache := mapDelete s.cache e.requestId } e).cache e.requestId = none := by
    rw [hcache]
    exact mapGet_mapDelete_self _ _
  refine ⟨rfl, hnone, ?_, ?_⟩
  · rw [hcache]
    exact mapGet_mapDelete_ne _ hk
  · unfold handleMessage
    rw [if_neg hne, hnone]

/-- Claim C1 witness: a concrete dispatch on a one-entry table. -/
theorem c1_witness :
    (handleMessage ⟨none, true, [(5, 77)], 5⟩ ⟨"ocr-message", 5, "result"⟩).2 = some 77 ∧
    mapGet ((handleMessage ⟨none, true, [(5, 77)], 5⟩
      ⟨"ocr-message", 5, "result"⟩).1).cache 5 = none ∧
    mapGet ((handleMessage ⟨none, true, [(5, 77)], 5⟩
      ⟨"ocr-message", 5, "result"⟩).1).cache 4 =
      mapGet (⟨none, true, [(5, 77)], 5⟩ : BridgeState).cache 4 ∧
    (handleMessage ((handleMessage ⟨none, true, [(5, 77)], 5⟩
      ⟨"ocr-message", 5, "result"⟩).1) ⟨"ocr-message", 5, "result"⟩).2 = none :=
  c1_dispatch_exactly_once ⟨none, true, [(5, 77)], 5⟩ ⟨"ocr-message", 5, "result"⟩
    77 4 rfl rfl (by decide)

/-- Claim C2 counterexample: the readiness envelope type the listener
reacts to is the literal string "ocr-ready", not "ready".  Observing an
envelope of type "ready" leaves the init promise pending, and with the
30-second timer it settles to `false`, not `true`. -/
theorem c2_counterexample :
    (runB initB [BEvent.msg ⟨"ocr-message", 1, "ready"⟩]).resolved = none ∧
    (runB initB [BEvent.msg ⟨"ocr-message", 1, "ready"⟩, BEvent.timeout]).resolved =
      some false := by
  constructor
  · decide
  · decide

/-- Claim C2 (amended: the readiness envelope type is "ocr-ready"): over
every event sequence, the init promise settles exactly once, to the value
determined by the first settling event — `true` for an accepted envelope
of type "ocr-ready", `false` for the 30-second timer — and stays at that
value regardless of later events. -/
theorem c2_settles_once (es : List BEvent) :
    (runB initB es).resolved = firstSettle es :=
  runB_settles es initB rfl

/-- Claim C3 counterexample: a region with an infinite x coordinate (not a
finite number, but not NaN either) survives the filter and is returned, so
the returned list does not contain only regions with finite x and y. -/
theorem c3_counterexample :
    (startOCR ⟨some true, true, [], 0⟩ JsVal.objV
        (JsData.arr [⟨"", JNum.posInf, JNum.fin 0, JNum.fin 0, JNum.fin 0⟩])).1 =
      some [⟨"", JNum.posInf, JNum.fin 0, JNum.fin 0, JNum.fin 0⟩] ∧
    jsFinite JNum.posInf = false := by
  constructor
  · decide
  · rfl

/-- Claim C3 (amended: the filter discards exactly the regions whose x or y
is NaN, so the returned list contains only regions with non-NaN — though
possibly infinite — x and y). -/
theorem c3_no_nan_regions (s : BridgeState) (rv : JsVal) (d : JsData)
    (res : List IOcrResultItem) (r : IOcrResultItem)
    (hres : (startOCR s rv d).1 = some res) (hmem : r ∈ res) :
    jsIsNaN r.x = false ∧ jsIsNaN r.y = false := by
  unfold startOCR at hres
  split at hres
  · simp only [Option.some.injEq] at hres
    subst hres
    exact absurd hmem (by simp)
  · cases d with
    | undefined =>
      simp only [postBody, Option.some.injEq] at hres
      subst hres
      exact ⟨validB_x (mem_normalizeRegions_valid hmem),
        validB_y (mem_normalizeRegions_valid hmem)⟩
    | arr l =>
      simp only [postBody, Option.some.injEq] at hres
      subst hres
      exact ⟨validB_x (mem_normalizeRegions_valid hmem),
        validB_y (mem_normalizeRegions_valid hmem)⟩
    | nonArray => simp [postBody] at hres

/-- Claim C3 witness: a concrete ready run returning one finite region. -/
theorem c3_witness :
    jsIsNaN (JNum.fin 1) = false ∧ jsIsNaN (JNum.fin 2) = false :=
  c3_no_nan_regions ⟨some true, true, [], 0⟩ JsVal.objV
    (JsData.arr [⟨"t", JNum.fin 1, JNum.fin 2, JNum.fin 3, JNum.fin 4⟩])
    [⟨"t", JNum.fin 1, JNum.fin 2, JNum.fin 3, JNum.fin 4⟩]
    ⟨"t", JNum.fin 1, JNum.fin 2, JNum.fin 3, JNum.fin 4⟩ (by decide) (by decide)

/-- Claim C4: the normalizer returns a permutation of the retained (non-NaN)
regions, sorted by ascending y and, for equal y, by ascending x; on the
spec's concrete example the invalid entry is dropped and the rest are
returned in y-major/x-minor ascending order. -/
theorem c4_sorted_reading_order (l : List IOcrResultItem) :
    List.Perm (normalizeRegions l) (l.filter validB) ∧
    (normalizeRegions l).Pairwise lexLE ∧
    normalizeRegions
        [⟨"", JNum.fin 5, JNum.fin 10, JNum.fin 0, JNum.fin 0⟩,
          ⟨"", JNum.fin 1, JNum.fin 10, JNum.fin 0, JNum.fin 0⟩,
          ⟨"", JNum.fin 0, JNum.fin 5, JNum.fin 0, JNum.fin 0⟩,
          ⟨"", JNum.nan, JNum.fin 3, JNum.fin 0, JNum.fin 0⟩] =
      [⟨"", JNum.fin 0, JNum.fin 5, JNum.fin 0, JNum.fin 0⟩,
        ⟨"", JNum.fin 1, JNum.fin 10, JNum.fin 0, JNum.fin 0⟩,
        ⟨"", JNum.fin 5, JNum.fin 10, JNum.fin 0, JNum.fin 0⟩] :=
  ⟨sortRegions_perm _, normalizeRegions_pairwise_lex l, by decide⟩

/-- Claim C5: a request issued while the transport is not installed yields
`undefined` (`none`) rather than an exception; in particular, if no
readiness signal ever arrives, the init promise resolves `false` once the
30-second timer fires and every subsequent request yields `undefined`. -/
theorem c5_request_undefined_without_transport (es : List BEvent) (cb : Nat)
    (h : ∀ ev ∈ es, isReadySignal ev = false) :
    (sendMessage (runB initB es) cb).2 = none ∧
    (BEvent.timeout ∈ es → (runB initB es).resolved = some false) := by
  have ht : (runB initB es).transport = false := runB_transport_false es initB h rfl
  constructor
  · unfold sendMessage
    rw [if_neg (by simp [ht])]
  · intro hto
    rw [runB_settles es initB rfl]
    exact firstSettle_no_ready es h hto

/-- Claim C5 witness: the timer fires with no readiness signal. -/
theorem c5_witness :
    (sendMessage (runB initB [BEvent.timeout]) 0).2 = none ∧
    (BEvent.timeout ∈ [BEvent.timeout] →
      (runB initB [BEvent.timeout]).resolved = some false) :=
  c5_request_undefined_without_transport [BEvent.timeout] 0 (by decide)

/-- Claim C6: if the readiness check resolves to a falsy value, `startOCR`
returns the empty list and never posts a "startOcr" request. -/
theorem c6_not_ready_short_circuit (s : BridgeState) (rv : JsVal) (d : JsData)
    (h : truthy (ocrIsReady s rv) = false) :
    (startOCR s rv d).1 = some [] ∧ "startOcr" ∉ (startOCR s rv d).2 := by
  unfold startOCR
  rw [if_pos h]
  refine ⟨rfl, ?_⟩
  by_cases ht : s.transport
  · simp [ht]
  · simp [ht]

/-- Claim C6 witness: before any readiness signal the check resolves
`undefined`, which is falsy. -/
theorem c6_witness :
    (startOCR initB JsVal.objV JsData.nonArray).1 = some [] ∧
    "startOcr" ∉ (startOCR initB JsVal.objV JsData.nonArray).2 :=
  c6_not_ready_short_circuit initB JsVal.objV JsData.nonArray (by decide)

/-- Claim C7: when the filtering/sorting block throws (for example because
the response payload is a truthy non-array, so `.filter` is not a
function), the exception is caught and swallowed and `startOCR` yields no
explicit value (`none`, JS `undefined`) instead of propagating it. -/
theorem c7_exception_swallowed (s : BridgeState) (rv : JsVal) (d : JsData)
    (hready : truthy (ocrIsReady s rv) = true)
    (herr : postBody d = Except.error ()) :
    (startOCR s rv d).1 = none := by
  unfold startOCR
  rw [if_neg (by simp [hready]), herr]

/-- Claim C7 witness: a ready transport with a truthy non-array payload. -/
theorem c7_witness :
    (startOCR ⟨some true, true, [], 0⟩ JsVal.objV JsData.nonArray).1 = none :=
  c7_exception_swallowed ⟨some true, true, [], 0⟩ JsVal.objV JsData.nonArray
    (by decide) rfl

/-- Claim C8: `init` never creates a second hidden iframe: after any call
the frame exists, and a further call (the executor runs synchronously, so
this covers interleaved concurrent calls as well) changes nothing — in
particular the number of appended frames stays the same. -/
theorem c8_init_idempotent (m : OCRManagerState) :
    (init m).iframe = true ∧ init (init m) = init m ∧
    (init (init m)).frames = (init m).frames := by
  cases h : m.iframe
  · simp [init, h]
  · simp [init, h]

/-- Claim C9: the request ids allocated over any event sequence are
strictly increasing (hence unique) for the lifetime of the process, and
the correlation table never holds two pending entries under the same id. -/
theorem c9_ids_increasing_table_nodup (es : List BEvent) :
    ((runAlloc initB es).2).Pairwise (fun a b => a < b) ∧
    (((runAlloc initB es).1).cache.map Prod.fst).Nodup := by
  obtain ⟨⟨hnd, _⟩, _, hpw, _⟩ := runAlloc_main es initB ⟨by simp [initB], by simp [initB]⟩
  exact ⟨hpw, hnd⟩

end YuqueOcr

namespace LakeEditorUI

/-- Claim C10: before the hosted editor instance exists, every content
operation of the imperative handle is safe and returns its fixed default:
`getContent` returns the empty string, `isEmpty` returns `true`, and
`appendContent` and `setContent` perform no action. -/
theorem c10_handle_defaults (type html : String) (breakLine : Bool) :
    getContent none type = "" ∧ isEmpty none = true ∧
    appendContent none html breakLine = [] ∧ setContent none html = [] :=
  ⟨rfl, rfl, rfl, rfl⟩

end LakeEditorUI
